import Mathlib

/-!
Verification of simult (src/download.rs, src/error.rs)

Shallow embedding of the download library: the segment planner, the
strategy decision of `download`, the join loop of `parallel`, the
batch entry point `download_multiple`, the positional segment-fetcher
writes, and the output path resolver `get_output_path`.

Machine integers (`u64`) are modelled as `Nat` with an explicit
`% 2 ^ 64` wherever the Rust arithmetic can wrap.
-/

namespace Simult

/-- The modulus `2 ^ 64` of Rust `u64` arithmetic. -/
def u64Size : Nat := 2 ^ 64

/-! ## Error model (src/error.rs)

`DownloadError` has three variants; the embedding keeps the kinds and
drops the wrapped payloads, which the claims never inspect. -/

inductive DownloadError where
  | requestError
  | joinError
  | fileWriteError
deriving DecidableEq, Repr

/-! ## Segment planner (src/download.rs, `parallel`, lines 80–90)

`chunk_size = content_length / conn_count`;
segment `i` has `start = i * chunk_size` and
`end = start + chunk_size - 1`, except the last segment whose
`end = content_length - 1`.  The subtraction `start + chunk_size - 1`
is `u64` arithmetic: when `chunk_size = 0` it wraps (release build)
to `2 ^ 64 - 1`, so it is modelled as addition of `2 ^ 64 - 1`
modulo `2 ^ 64`. -/

def chunkSize (contentLength connCount : Nat) : Nat :=
  contentLength / connCount

def segStart (contentLength connCount i : Nat) : Nat :=
  i * chunkSize contentLength connCount

def segEnd (contentLength connCount i : Nat) : Nat :=
  if i = connCount - 1 then
    contentLength - 1
  else
    (segStart contentLength connCount i + chunkSize contentLength connCount
      + (u64Size - 1)) % u64Size

/-- The list of `(start, end)` pairs spawned by `parallel`,
one per `i ∈ 0..conn_count`. -/
def planSegments (contentLength connCount : Nat) : List (Nat × Nat) :=
  (List.range connCount).map fun i =>
    (segStart contentLength connCount i, segEnd contentLength connCount i)

/-! ## Strategy decision (src/download.rs, `download`, lines 31–54)

`content_length` is read from the `Content-Length` header, any missing
or unparseable value collapsing to `0`; `accept_ranges` is the mere
presence of the `Accept-Ranges` header (`is_some()` — the value check
`v.trim() != "none"` is commented out in the source).  Header values
are modelled as `Option String`, `None` covering both an absent header
and a `to_str` failure. -/

/-- Decimal value of a digit string: `some` iff the chars are nonempty
and all ASCII digits. -/
def digitsToNat? (l : List Char) : Option Nat :=
  if l ≠ [] ∧ l.all Char.isDigit then
    some (l.foldl (fun a c => 10 * a + (c.toNat - 48)) 0)
  else
    none

/-- Rust `str::parse::<u64>` on a header value: an optional leading
`'+'`, then a nonempty run of decimal digits whose value fits in
`u64`; anything else fails. -/
def parseU64 (s : String) : Option Nat :=
  let l := if s.data.head? = some '+' then s.data.tail else s.data
  (digitsToNat? l).filter (· < u64Size)

def contentLengthOf (header : Option String) : Nat :=
  (header.bind parseU64).getD 0

def acceptRangesOf (header : Option String) : Bool :=
  header.isSome

inductive Strategy where
  | parallel
  | sequential
deriving DecidableEq, Repr

def strategyOf (contentLengthHeader acceptRangesHeader : Option String) : Strategy :=
  if contentLengthOf contentLengthHeader > 0 ∧ acceptRangesOf acceptRangesHeader then
    .parallel
  else
    .sequential

/-! ## Join loop of `parallel` (src/download.rs, lines 122–126)

Each spawned task yields either a `JoinError` (the task panicked) or
the own `Result<(), DownloadError>` of the task.  The loop body is
`let _ = result?;`: the `?` propagates a `JoinError`, and the `let _ =`
discards the inner result of the task. -/

inductive TaskOutcome where
  | completed (r : Except DownloadError Unit)
  | panicked
deriving Repr

/-- The `while let Some(result) = futures.next().await { let _ = result?; }`
loop, over task outcomes in completion order. -/
def joinLoop : List TaskOutcome → Except DownloadError Unit
  | [] => .ok ()
  | .panicked :: _ => .error .joinError
  | .completed _ :: rest => joinLoop rest

/-- The value `parallel` returns once its tasks report the given
outcomes: the error of the join loop, or `Ok(output_path)`. -/
def parallelResult (outcomes : List TaskOutcome) (outputPath : String) :
    Except DownloadError String :=
  match joinLoop outcomes with
  | .error e => .error e
  | .ok _ => .ok outputPath

/-! ## Batch entry point (src/download.rs, `download_multiple`, lines 59–76)

`urls.chunks(self.conn_count)` splits the slice into consecutive
batches of `conn_count` elements (the last batch possibly shorter);
`Downloader::new` guarantees `conn_count ≥ 1`.  For each batch the
function spawns one `sequential` task per URL, never awaits any of
them, and finally returns `Ok(Vec::new())`. -/

/-- Rust `slice::chunks(n)`: consecutive sub-slices of length `n`,
the last one possibly shorter.  (`n = 0` panics in Rust and cannot be
reached; the guard returning `[]` keeps the function total.) -/
def chunksList : Nat → List α → List (List α)
  | _, [] => []
  | 0, _ :: _ => []
  | n + 1, x :: xs => (x :: xs).take (n + 1) :: chunksList (n + 1) (xs.drop n)
termination_by _ l => l.length
decreasing_by
  simp only [List.length_drop, List.length_cons]
  omega

/-- The work a `Downloader` dispatches, by kind. -/
inductive FetchOp where
  | sequentialFetch (url : String)
  | parallelFetch (url : String) (contentLength : Nat)
  | headProbe (url : String)
deriving DecidableEq, Repr

/-- The tasks `download_multiple` spawns, in spawn order: one
`sequential(url)` per URL of each batch. -/
def downloadMultipleSpawns (connCount : Nat) (urls : List String) : List FetchOp :=
  ((chunksList connCount urls).flatten).map .sequentialFetch

/-- The value `download_multiple` returns: it awaits none of the
spawned tasks and unconditionally ends with `Ok(Vec::new())`. -/
def downloadMultipleResult (_connCount : Nat) (_urls : List String) :
    Except DownloadError (List String) :=
  .ok []

/-! ## Segment fetcher writes (src/download.rs, lines 97–118)

The task opens the shared output file with
`OpenOptions::new().write(true).create(true)` — create-if-absent,
write-enabled, and *non-truncating*, so the prior contents `file` are
kept.  It seeks to `segment.start` and then `write_all`s the response
body chunks in order, the cursor advancing by the length of each chunk.
A file is modelled sparsely as `Nat → Option Nat` (offset to byte),
`none` standing for a never-written offset. -/

/-- One `write_all` of a chunk at offset `off`: bytes `off ≤ p < off + body.length`
now hold the chunk, all other offsets keep their old contents. -/
def writeBytesAt (file : Nat → Option Nat) (off : Nat) (body : List Nat) :
    Nat → Option Nat := fun p =>
  if off ≤ p then
    match body[p - off]? with
    | some b => some b
    | none => file p
  else
    file p

/-- The fetch loop: starting from the seek position `start`, fold the
successive `write_all`s of the body chunks over the opened file. -/
def fetchSegmentWrite (file : Nat → Option Nat) (start : Nat)
    (chunks : List (List Nat)) : Nat → Option Nat :=
  (chunks.foldl (fun st c => (writeBytesAt st.1 st.2 c, st.2 + c.length))
    (file, start)).1

/-! ## Output path resolver (src/download.rs, `get_output_path`, lines 142–172)

The filename candidate comes from `url::Url::parse(url).ok()
.and_then(|u| u.path_segments().map(|s| s.last().unwrap_or("unnamed")))
.unwrap_or("unnamed")`.  The `url` crate is an external collaborator;
its outcome is modelled abstractly: a parse failure, a URL with no
path segments (cannot-be-a-base), or the list of path segments (for a
URL whose path ends in `/`, the last segment is the empty string). -/

inductive UrlParseResult where
  | fail
  | noPathSegments
  | pathSegments (segs : List String)
deriving DecidableEq, Repr

def candidateFilename : UrlParseResult → String
  | .fail => "unnamed"
  | .noPathSegments => "unnamed"
  | .pathSegments segs => (segs.getLast?).getD "unnamed"

/-- Rust `Path::new(s).file_name()` for a single-component `s`:
`None` for `""`, `"."` and `".."`, otherwise the name itself. -/
def fileNameOpt (s : String) : Option String :=
  if s = "" ∨ s = "." ∨ s = ".." then none else some s

/-- Index of the last `'.'` at a position `≥ 1` (a dot leading the
name does not begin an extension), accumulator-style over the chars. -/
def lastDotIdxAux : List Char → Nat → Option Nat → Option Nat
  | [], _, acc => acc
  | c :: rest, i, acc =>
      lastDotIdxAux rest (i + 1) (if c = '.' ∧ 1 ≤ i then some i else acc)

def lastDotIdx (l : List Char) : Option Nat :=
  lastDotIdxAux l 0 none

/-- Rust `Path::new(s).file_stem()`: the file name up to the last
embedded dot. -/
def fileStem (s : String) : Option String :=
  match fileNameOpt s with
  | none => none
  | some n =>
    match lastDotIdx n.data with
    | none => some n
    | some k => some (String.mk (n.data.take k))

/-- Rust `Path::new(s).extension()`: the file name after the last
embedded dot. -/
def fileExt (s : String) : Option String :=
  match fileNameOpt s with
  | none => none
  | some n =>
    match lastDotIdx n.data with
    | none => none
    | some k => some (String.mk (n.data.drop (k + 1)))

/-- Rust `PathBuf::join` with a single trailing component. -/
def joinPath (dir name : String) : String :=
  dir ++ "/" ++ name

/-- The probed collision name `format!("{} ({}).{}", file_stem, i, ext)` —
note the dot is printed even when `ext` is empty. -/
def numberedName (stem ext : String) (i : Nat) : String :=
  stem ++ " (" ++ Nat.repr i ++ ")." ++ ext

/-- The `while output_path.exists()` loop, probing
`dir/numberedName stem ext i` for `i = i₀, i₀ + 1, …`.  The directory
contents are the finite list `fs`; `fuel` bounds the iterations and is
chosen as `fs.length + 1` by the caller, which `probeLoop_not_mem`
proves sufficient for the fallback branch to be unreachable. -/
def probeLoop (fs : List String) (dir stem ext : String) : Nat → Nat → String
  | i, 0 => joinPath dir (numberedName stem ext i)
  | i, fuel + 1 =>
    let c := joinPath dir (numberedName stem ext i)
    if c ∈ fs then probeLoop fs dir stem ext (i + 1) fuel else c

/-- Model of `get_output_path` on an already-extracted candidate `filename`,
against directory contents `fs` (the set of existing paths). -/
def getOutputPath (fs : List String) (dir filename : String) : String :=
  let stem := (fileStem filename).getD "unnamed"
  let ext := (fileExt filename).getD ""
  let first := joinPath dir filename
  if first ∈ fs then probeLoop fs dir stem ext 1 (fs.length + 1) else first

/-- Full `get_output_path`: candidate filename from the URL parse
outcome, then collision-free resolution. -/
def resolveOutputPath (fs : List String) (dir : String) (u : UrlParseResult) : String :=
  getOutputPath fs dir (candidateFilename u)

/-! ## Planner lemmas -/

theorem u64Size_pos : 0 < u64Size :=
  Nat.two_pow_pos 64

/-- When `chunk_size ≥ 1` the wrapped `start + chunk_size - 1` of a
non-final segment is the plain natural subtraction. -/
theorem segEnd_eq_of_chunk_pos (cl cc i : Nat) (hcl : cl < u64Size)
    (hc : 1 ≤ chunkSize cl cc) (hi : i + 1 < cc) :
    segEnd cl cc i = segStart cl cc i + chunkSize cl cc - 1 := by
  have hne : i ≠ cc - 1 := by omega
  have hsum : segStart cl cc i + chunkSize cl cc ≤ cl := by
    have h1 : segStart cl cc i + chunkSize cl cc = (i + 1) * chunkSize cl cc := by
      simp [segStart, Nat.succ_mul]
    have h2 : (i + 1) * chunkSize cl cc ≤ cc * chunkSize cl cc :=
      Nat.mul_le_mul_right _ (by omega)
    have h3 : cc * chunkSize cl cc ≤ cl := by
      simpa [chunkSize, Nat.mul_comm] using Nat.div_mul_le_self cl cc
    omega
  have hrw : segStart cl cc i + chunkSize cl cc + (u64Size - 1)
      = (segStart cl cc i + chunkSize cl cc - 1) + u64Size := by
    have := u64Size_pos
    omega
  simp only [segEnd, if_neg hne, hrw, Nat.add_mod_right]
  exact Nat.mod_eq_of_lt (by omega)

theorem chunkSize_pos (cl cc : Nat) (hcc : 1 ≤ cc) (hle : cc ≤ cl) :
    1 ≤ chunkSize cl cc :=
  (Nat.one_le_div_iff (by omega)).mpr hle

theorem cc_mul_chunkSize_le (cl cc : Nat) :
    cc * chunkSize cl cc ≤ cl := by
  simpa [chunkSize, Nat.mul_comm] using Nat.div_mul_le_self cl cc

/-- C2 (amended): for `content_length > 0` and `1 ≤ conn_count ≤ content_length`
(`content_length` in `u64` range), the planner segments partition
`[0, content_length - 1]` exactly: one segment per connection, each with
`start ≤ end`, contiguous, pairwise disjoint and sorted (`end i < start j`
for `i < j`), starting at `0`, ending at `content_length - 1`, and
covering every byte of the range. -/
theorem planSegments_partition (cl cc : Nat) (hcc : 1 ≤ cc) (hle : cc ≤ cl)
    (hcl : cl < u64Size) :
    planSegments cl cc
        = (List.range cc).map (fun i => (segStart cl cc i, segEnd cl cc i)) ∧
    (planSegments cl cc).length = cc ∧
    (∀ i, i < cc → segStart cl cc i ≤ segEnd cl cc i) ∧
    (∀ i, i + 1 < cc → segEnd cl cc i + 1 = segStart cl cc (i + 1)) ∧
    segStart cl cc 0 = 0 ∧
    segEnd cl cc (cc - 1) = cl - 1 ∧
    (∀ i j, i < j → j < cc → segEnd cl cc i < segStart cl cc j) ∧
    (∀ p, p < cl → ∃ i, i < cc ∧ segStart cl cc i ≤ p ∧ p ≤ segEnd cl cc i) := by
  have hchunk : 1 ≤ chunkSize cl cc := chunkSize_pos cl cc hcc hle
  have hmul : cc * chunkSize cl cc ≤ cl := cc_mul_chunkSize_le cl cc
  refine ⟨rfl, by simp [planSegments], ?_, ?_, by simp [segStart], ?_, ?_, ?_⟩
  · -- start ≤ end
    intro i hi
    by_cases hlast : i = cc - 1
    · subst hlast
      have hend : segEnd cl cc (cc - 1) = cl - 1 := by simp [segEnd]
      have h1 : (cc - 1) * chunkSize cl cc + chunkSize cl cc = cc * chunkSize cl cc := by
        rw [Nat.sub_one_mul]
        have h2 : chunkSize cl cc ≤ cc * chunkSize cl cc :=
          Nat.le_mul_of_pos_left _ (by omega)
        omega
      simp only [segStart]
      omega
    · have hi1 : i + 1 < cc := by omega
      rw [segEnd_eq_of_chunk_pos cl cc i hcl hchunk hi1]
      omega
  · -- contiguity
    intro i hi
    rw [segEnd_eq_of_chunk_pos cl cc i hcl hchunk hi]
    simp only [segStart, Nat.succ_mul]
    omega
  · -- last end
    simp [segEnd]
  · -- sorted / disjoint
    intro i j hij hj
    have hi1 : i + 1 < cc := by omega
    rw [segEnd_eq_of_chunk_pos cl cc i hcl hchunk hi1]
    have h1 : (i + 1) * chunkSize cl cc ≤ j * chunkSize cl cc :=
      Nat.mul_le_mul_right _ (by omega)
    simp only [segStart] at *
    have h2 : (i + 1) * chunkSize cl cc = i * chunkSize cl cc + chunkSize cl cc :=
      Nat.succ_mul i (chunkSize cl cc)
    omega
  · -- coverage
    intro p hp
    rcases Nat.lt_or_ge (p / chunkSize cl cc) (cc - 1) with hcase | hcase
    · refine ⟨p / chunkSize cl cc, by omega, ?_, ?_⟩
      · simpa [segStart] using Nat.div_mul_le_self p (chunkSize cl cc)
      · rw [segEnd_eq_of_chunk_pos cl cc _ hcl hchunk (by omega)]
        have hlt : p < (p / chunkSize cl cc + 1) * chunkSize cl cc :=
          (Nat.div_lt_iff_lt_mul (by omega)).mp (Nat.lt_succ_self _)
        have h2 : (p / chunkSize cl cc + 1) * chunkSize cl cc
            = p / chunkSize cl cc * chunkSize cl cc + chunkSize cl cc :=
          Nat.succ_mul _ _
        simp only [segStart]
        omega
    · refine ⟨cc - 1, by omega, ?_, ?_⟩
      · have h1 : (cc - 1) * chunkSize cl cc ≤ p :=
          (Nat.le_div_iff_mul_le (by omega)).mp hcase
        simpa [segStart] using h1
      · have hend : segEnd cl cc (cc - 1) = cl - 1 := by simp [segEnd]
        omega

/-- C2 counterexample: at `content_length = 1`, `conn_count = 2` the
planner computes `chunk_size = 0` and emits `[(0, 2^64 - 1), (0, 0)]`:
the segments overlap (both contain byte `0`) and the `end` of the
first segment lies outside `[0, content_length - 1]`, so they do not
partition the range. -/
theorem planSegments_one_two_not_partition :
    planSegments 1 2 = [(0, u64Size - 1), (0, 0)] ∧
    ¬ (∀ a ∈ planSegments 1 2, ∀ b ∈ planSegments 1 2, a ≠ b →
        a.2 < b.1 ∨ b.2 < a.1) ∧
    ¬ (∀ a ∈ planSegments 1 2, a.2 ≤ 1 - 1) := by
  decide

/-- C2 witness: the amended partition statement evaluated at
`content_length = 10`, `conn_count = 3`. -/
theorem planSegments_partition_witness :
    (1 ≤ 3 ∧ 3 ≤ 10 ∧ 10 < u64Size) ∧
    (planSegments 10 3
        = (List.range 3).map (fun i => (segStart 10 3 i, segEnd 10 3 i)) ∧
    (planSegments 10 3).length = 3 ∧
    (∀ i, i < 3 → segStart 10 3 i ≤ segEnd 10 3 i) ∧
    (∀ i, i + 1 < 3 → segEnd 10 3 i + 1 = segStart 10 3 (i + 1)) ∧
    segStart 10 3 0 = 0 ∧
    segEnd 10 3 (3 - 1) = 10 - 1 ∧
    (∀ i j, i < j → j < 3 → segEnd 10 3 i < segStart 10 3 j) ∧
    (∀ p, p < 10 → ∃ i, i < 3 ∧ segStart 10 3 i ≤ p ∧ p ≤ segEnd 10 3 i)) :=
  ⟨⟨by decide, by decide, by decide⟩,
    planSegments_partition 10 3 (by decide) (by decide) (by decide)⟩

/-- C4: the source planner performs unguarded integer division: at
`content_length = 1`, `conn_count = 2` it keeps both segments
(`chunk_size = 0`) instead of clamping the count to `content_length`,
and the wrapped non-final segment `end = 2^64 - 1` escapes
`[0, content_length - 1]`. -/
theorem planner_unclamped_when_conn_exceeds_length :
    chunkSize 1 2 = 0 ∧
    (planSegments 1 2).length = 2 ∧
    planSegments 1 2 ≠ [(0, 0)] ∧
    ∃ se ∈ planSegments 1 2, u64Size - 1 ≤ se.2 := by
  decide

/-- C1: the join loop of `parallel` (`let _ = result?`) discards a
own `Result` of a completed task: a segment whose GET failed with
`RequestError` does not abort the download and `parallel` still
returns `Ok(output_path)`; only an abnormally terminated task
(`JoinError`) propagates. -/
theorem parallel_swallows_segment_error :
    joinLoop [.completed (.error .requestError)] = .ok () ∧
    parallelResult [.completed (.error .requestError)] "out/data.bin"
      = .ok "out/data.bin" ∧
    parallelResult [.panicked] "out/data.bin" = .error .joinError :=
  ⟨rfl, rfl, rfl⟩

/-- C3: the strategy decision treats the mere presence of the
`Accept-Ranges` header as range support: with `Content-Length: 100`
and `Accept-Ranges: none` (any casing) the parallel path is chosen,
although zero or missing content length does select the sequential
path. -/
theorem strategy_ignores_none_value :
    strategyOf (some "100") (some "none") = .parallel ∧
    strategyOf (some "100") (some "NONE") = .parallel ∧
    strategyOf (some "0") (some "bytes") = .sequential ∧
    strategyOf none (some "bytes") = .sequential ∧
    strategyOf (some "100") none = .sequential := by
  decide

/-- C5: `download_multiple` awaits none of the tasks it spawns and
unconditionally returns `Ok(Vec::new())` — no resolved paths and no
error, whatever the URLs. -/
theorem download_multiple_returns_empty :
    downloadMultipleResult 4 ["https://a/x", "https://a/y"] = .ok [] ∧
    ∀ (n : Nat) (urls : List String), downloadMultipleResult n urls = .ok [] :=
  ⟨rfl, fun _ _ => rfl⟩

/-! ## Segment fetcher frame lemmas -/

theorem writeBytesAt_outside (file : Nat → Option Nat) (off : Nat)
    (body : List Nat) (p : Nat) (h : p < off ∨ off + body.length ≤ p) :
    writeBytesAt file off body p = file p := by
  unfold writeBytesAt
  rcases h with h | h
  · rw [if_neg (by omega)]
  · by_cases hle : off ≤ p
    · rw [if_pos hle]
      have hnone : body[p - off]? = none :=
        List.getElem?_eq_none (by omega)
      rw [hnone]
    · rw [if_neg hle]

theorem fetchSegmentWrite_frame_all (chunks : List (List Nat)) :
    ∀ (file : Nat → Option Nat) (start p : Nat),
      p < start ∨ start + (chunks.flatten).length ≤ p →
      fetchSegmentWrite file start chunks p = file p := by
  induction chunks with
  | nil => intro file start p _; rfl
  | cons c rest ih =>
    intro file start p h
    have hstep : fetchSegmentWrite file start (c :: rest)
        = fetchSegmentWrite (writeBytesAt file start c) (start + c.length) rest := rfl
    rw [hstep]
    have hlen : ((c :: rest).flatten).length = c.length + (rest.flatten).length := by
      simp
    rw [ih (writeBytesAt file start c) (start + c.length) p (by omega)]
    exact writeBytesAt_outside file start c p (by omega)

/-- C6 (amended): a segment fetcher opens the shared file
non-truncatingly (`write(true).create(true)`), seeks to
`segment.start`, and writes the body chunks in order; provided the
response body carries at most `end - start + 1` bytes (the server
honours the range), every offset outside `[start, end]` keeps the
byte previously present in the file. -/
theorem fetchSegmentWrite_frame (file : Nat → Option Nat)
    (start endB : Nat) (chunks : List (List Nat))
    (hbody : start + (chunks.flatten).length ≤ endB + 1) :
    ∀ p, p < start ∨ endB < p → fetchSegmentWrite file start chunks p = file p := by
  intro p hp
  exact fetchSegmentWrite_frame_all chunks file start p (by omega)

/-- C6 witness: the frame theorem at `start = 2`, `end = 3`, a
two-byte body, evaluated at offset `5`. -/
theorem fetchSegmentWrite_frame_witness :
    2 + (([[7, 8]] : List (List Nat)).flatten).length ≤ 3 + 1 ∧
    fetchSegmentWrite (fun _ => some 1) 2 [[7, 8]] 5 = (fun _ => some 1) 5 :=
  ⟨by decide,
    fetchSegmentWrite_frame (fun _ => some 1) 2 3 [[7, 8]] (by decide) 5
      (by decide)⟩

/-- C6 counterexample: with a body longer than the segment window
(`[start, end] = [0, 0]`, two body bytes) the fetcher writes offset
`1`, outside its window: the claim as stated does not hold for every
response body. -/
theorem fetchSegmentWrite_escapes_window :
    fetchSegmentWrite (fun _ => none) 0 [[7, 8]] 1 = some 8 ∧
    (fun _ => (none : Option Nat)) 1 = none ∧ (0 : Nat) < 1 :=
  ⟨rfl, rfl, by decide⟩

/-! ## Batch lemmas -/

theorem chunksList_flatten {α : Type} (n : Nat) :
    ∀ l : List α, (chunksList (n + 1) l).flatten = l := by
  have H : ∀ (k : Nat) (l : List α), l.length ≤ k →
      (chunksList (n + 1) l).flatten = l := by
    intro k
    induction k with
    | zero =>
      intro l hl
      have : l = [] := List.eq_nil_of_length_eq_zero (by omega)
      subst this
      simp [chunksList]
    | succ k ih =>
      intro l hl
      match l with
      | [] => simp [chunksList]
      | x :: xs =>
        rw [chunksList]
        simp only [List.flatten_cons]
        rw [ih (xs.drop n) (by simp [List.length_drop]; simp at hl; omega)]
        rw [List.take_succ_cons]
        simp [List.take_append_drop]
  intro l
  exact H l.length l (Nat.le_refl _)

/-- C9: for any positive connection count, `download_multiple` spawns
exactly one `sequential` fetch per input URL, in order — it never
issues a `HEAD` probe and never dispatches the parallel segmented
strategy. -/
theorem download_multiple_spawns_sequential_only (connCount : Nat)
    (urls : List String) (h : 1 ≤ connCount) :
    downloadMultipleSpawns connCount urls = urls.map .sequentialFetch := by
  obtain ⟨m, rfl⟩ : ∃ m, connCount = m + 1 := ⟨connCount - 1, by omega⟩
  unfold downloadMultipleSpawns
  rw [chunksList_flatten]

/-- C9 witness: three URLs, two connections. -/
theorem download_multiple_spawns_sequential_only_witness :
    1 ≤ 2 ∧
    downloadMultipleSpawns 2 ["https://a/x", "https://a/y", "https://a/z"]
      = ["https://a/x", "https://a/y", "https://a/z"].map .sequentialFetch :=
  ⟨by decide,
    download_multiple_spawns_sequential_only 2
      ["https://a/x", "https://a/y", "https://a/z"] (by decide)⟩

/-! ## Filename candidate lemmas -/

/-- C10: a URL that parses and whose path ends in `/` contributes the
empty string as its last path segment, and that empty string — not
the literal `"unnamed"` — is the candidate filename; the `"unnamed"`
fallback arises from a parse failure or from a URL with no path
segments. -/
theorem candidateFilename_trailing_slash :
    (∀ segs : List String,
      candidateFilename (.pathSegments (segs ++ [""])) = "") ∧
    candidateFilename .fail = "unnamed" ∧
    candidateFilename .noPathSegments = "unnamed" := by
  refine ⟨?_, rfl, rfl⟩
  intro segs
  simp [candidateFilename]

/-! ## Decimal repr is injective

`Nat.repr` folds back to its argument under the decimal-value fold,
hence distinct indices yield distinct probe names. -/

theorem digitChar_toNat_sub : ∀ k, k < 10 → (Nat.digitChar k).toNat - 48 = k := by
  decide

theorem toDigitsCore_foldl (fuel : Nat) :
    ∀ (n : Nat) (ds : List Char), n < fuel →
      (Nat.toDigitsCore 10 fuel n ds).foldl (fun a c => 10 * a + (c.toNat - 48)) 0
        = ds.foldl (fun a c => 10 * a + (c.toNat - 48)) n := by
  induction fuel with
  | zero => intro n ds h; omega
  | succ fuel ih =>
    intro n ds h
    simp only [Nat.toDigitsCore]
    split
    next h0 =>
      have h10 : n < 10 := by
        have := (Nat.div_eq_zero_iff (by omega)).mp h0
        omega
      simp only [List.foldl]
      rw [digitChar_toNat_sub (n % 10) (Nat.mod_lt n (by omega))]
      rw [Nat.mod_eq_of_lt h10, Nat.mul_zero, Nat.zero_add]
    next h0 =>
      have hge : 10 ≤ n := by
        by_contra hlt
        exact h0 (Nat.div_eq_of_lt (by omega))
      rw [ih (n / 10) _ (by
        have : n / 10 < n := Nat.div_lt_self (by omega) (by omega)
        omega)]
      simp only [List.foldl]
      rw [digitChar_toNat_sub (n % 10) (Nat.mod_lt n (by omega)),
        Nat.div_add_mod]

theorem repr_foldl (n : Nat) :
    (Nat.toDigits 10 n).foldl (fun a c => 10 * a + (c.toNat - 48)) 0 = n := by
  unfold Nat.toDigits
  rw [toDigitsCore_foldl (n + 1) n [] (Nat.lt_succ_self n)]
  rfl

theorem natRepr_injective : Function.Injective Nat.repr := by
  intro m n h
  have hd : Nat.toDigits 10 m = Nat.toDigits 10 n := by
    have h2 := congrArg String.data h
    simpa [Nat.repr, List.asString] using h2
  have h3 := congrArg
    (fun l : List Char => l.foldl (fun a c => 10 * a + (c.toNat - 48)) 0) hd
  simpa [repr_foldl] using h3

/-! ## Probe name injectivity and the pigeonhole bound -/

theorem numberedName_inj (stem ext : String) (i j : Nat)
    (h : numberedName stem ext i = numberedName stem ext j) : i = j := by
  unfold numberedName at h
  have hdata := congrArg String.data h
  simp only [String.data_append, List.append_assoc] at hdata
  have h1 := List.append_cancel_left hdata
  have h2 := List.append_cancel_left h1
  have h3 : (Nat.repr i).data = (Nat.repr j).data :=
    List.append_cancel_right h2
  exact natRepr_injective (String.ext h3)

theorem joinPath_inj_right (dir a b : String)
    (h : joinPath dir a = joinPath dir b) : a = b := by
  unfold joinPath at h
  have hdata := congrArg String.data h
  simp only [String.data_append, List.append_assoc] at hdata
  exact String.ext (List.append_cancel_left (List.append_cancel_left hdata))

theorem exists_unused (fs : List String) (f : Nat → String)
    (hf : ∀ i j, f i = f j → i = j) (i0 : Nat) :
    ∃ k, k < fs.length + 1 ∧ f (i0 + k) ∉ fs := by
  by_contra hc
  push_neg at hc
  have hsub : (Finset.range (fs.length + 1)).image (fun k => f (i0 + k))
      ⊆ fs.toFinset := by
    intro x hx
    rw [Finset.mem_image] at hx
    obtain ⟨k, hk, rfl⟩ := hx
    rw [List.mem_toFinset]
    exact hc k (Finset.mem_range.mp hk)
  have hinj : Set.InjOn (fun k => f (i0 + k)) (Finset.range (fs.length + 1)) := by
    intro a _ b _ hab
    have := hf (i0 + a) (i0 + b) hab
    omega
  have hcard1 : ((Finset.range (fs.length + 1)).image (fun k => f (i0 + k))).card
      = fs.length + 1 := by
    rw [Finset.card_image_of_injOn hinj, Finset.card_range]
  have hcard2 := Finset.card_le_card hsub
  have hcard3 := fs.toFinset_card_le
  omega

/-! ## The probe loop returns a fresh path -/

theorem probeLoop_not_mem (fs : List String) (dir stem ext : String) :
    ∀ (fuel i : Nat),
      (∃ k, k < fuel ∧ joinPath dir (numberedName stem ext (i + k)) ∉ fs) →
      probeLoop fs dir stem ext i fuel ∉ fs := by
  intro fuel
  induction fuel with
  | zero =>
    intro i h
    obtain ⟨k, hk, _⟩ := h
    omega
  | succ fuel ih =>
    intro i h
    obtain ⟨k, hk, hfree⟩ := h
    simp only [probeLoop]
    split
    next hmem =>
      apply ih
      match k with
      | 0 => exact absurd (by simpa using hmem) (by simpa using hfree)
      | k' + 1 =>
        refine ⟨k', by omega, ?_⟩
        have harith : i + 1 + k' = i + (k' + 1) := by omega
        rw [harith]
        exact hfree
    next hmem => exact hmem

theorem getOutputPath_not_mem (fs : List String) (dir filename : String) :
    getOutputPath fs dir filename ∉ fs := by
  simp only [getOutputPath]
  split
  next hmem =>
    apply probeLoop_not_mem
    exact exists_unused fs
      (fun j => joinPath dir
        (numberedName ((fileStem filename).getD "unnamed")
          ((fileExt filename).getD "") j))
      (fun a b hab =>
        numberedName_inj _ _ a b (joinPath_inj_right dir _ _ hab)) 1
  next hmem => exact hmem

/-- C7: the output path resolver never returns a path that already
exists (for any directory contents, directory and candidate
filename), and in the concrete scenario of the spec: with `d/report.txt`
present, resolving a URL ending in `report.txt` yields
`d/report (1).txt`, and once that also exists, `d/report (2).txt`.
Determinism is immediate: the resolver is a pure function of the
directory contents and the URL. -/
theorem getOutputPath_fresh_and_examples :
    (∀ (fs : List String) (dir filename : String),
      getOutputPath fs dir filename ∉ fs) ∧
    resolveOutputPath ["d/report.txt"] "d" (.pathSegments ["report.txt"])
      = "d/report (1).txt" ∧
    resolveOutputPath ["d/report.txt", "d/report (1).txt"] "d"
        (.pathSegments ["report.txt"])
      = "d/report (2).txt" := by
  refine ⟨getOutputPath_not_mem, ?_, ?_⟩ <;> decide

/-- C8 counterexample: with an extension-less candidate (`file`), a
collision probes `d/file (1).` — the dot is printed even though the
extension is empty, so the claimed form `"{stem} (1)"` is not what the
resolver produces. -/
theorem numbered_suffix_keeps_trailing_dot :
    getOutputPath ["d/file"] "d" "file" = "d/file (1)." ∧
    "d/file (1)." ≠ "d/file (1)" ∧
    numberedName "file" "" 1 ≠ "file (1)" := by
  decide

/-- C8 (amended): the probed collision name is always
`"{stem} (i).{ext}"`; with an empty extension this is `"{stem} (i)."`
with a trailing dot, for every index `i`. -/
theorem numberedName_empty_ext (stem : String) (i : Nat) :
    numberedName stem "" i = stem ++ " (" ++ Nat.repr i ++ ")." := by
  unfold numberedName
  apply String.ext
  simp [String.data_append]

end Simult
